import Mathlib

/-!
# Verification of the UKE CSV editor's patient-code conversion core

Shallow embedding of the conversion engine of `uke_csv_editor`:

* `converter.convert_rows`  — the two-stage per-row rewrite pipeline,
* `highlighter._build_regex` — detection-pattern construction,
* `gui._strip_branch`, `gui._normalize_code`, `gui._format_code`,
  `gui._format_code_force_branch_general` — suffix stripping and width
  normalization,
* `gui.convert_and_save` — the custom-symbol per-row rewrite,
* `gui._apply_settings` — the trailing-comma clamp.

Rows are lists of fields; a raw line is the comma-join.  Strings are
modelled as `List Char`.  The Python regular expressions used by the code
are fixed, concrete patterns, embedded here as explicit scanners with the
same backtracking behaviour.
-/

abbrev Str := List Char

/-- Python `\s` on the ASCII range (space, tab, newline, CR, VT, FF). -/
def pyIsSpace (c : Char) : Bool :=
  c == ' ' || c == '\t' || c == '\n' || c == '\r' || c == '\x0b' || c == '\x0c'

/-- ASCII digit. -/
def isDigitChar (c : Char) : Bool := '0' ≤ c && c ≤ '9'

/-- Character class `[0-9\-]` used by the detection patterns. -/
def isCodeChar (c : Char) : Bool := isDigitChar c || c == '-'

/-- Split off the maximal whitespace prefix (`\s*` with maximal munch). -/
def splitWs : Str → Str × Str
  | [] => ([], [])
  | c :: cs =>
    if pyIsSpace c then
      let p := splitWs cs
      (c :: p.1, p.2)
    else ([], c :: cs)

/-- Take exactly `n` characters satisfying `p`; `none` if impossible. -/
def takeClass (p : Char → Bool) : Nat → Str → Option (Str × Str)
  | 0, s => some ([], s)
  | _ + 1, [] => none
  | n + 1, c :: cs =>
    if p c then
      match takeClass p n cs with
      | some (cd, r) => some (c :: cd, r)
      | none => none
    else none

/-- Consume exactly `n` literal commas. -/
def dropCommas : Nat → Str → Option Str
  | 0, s => some s
  | _ + 1, [] => none
  | n + 1, c :: cs => if c = ',' then dropCommas n cs else none

/-- `"," * n`. -/
def commas (n : Nat) : Str := List.replicate n ','

/-- `",".join(row)`. -/
def joinComma (row : List Str) : Str := List.intercalate [','] row

/-- `" ".join(xs)`. -/
def joinSpace (xs : List Str) : Str := List.intercalate [' '] xs

/-- Helper for `dedupKeepFirst`: drop elements already seen. -/
def dedupKeepFirstAux (seen : List Str) : List Str → List Str
  | [] => []
  | x :: xs =>
    if seen.contains x then dedupKeepFirstAux seen xs
    else x :: dedupKeepFirstAux (x :: seen) xs

/-- `dict.fromkeys(xs)`: de-duplicate keeping the first occurrence of each
element, preserving order. -/
def dedupKeepFirst (xs : List Str) : List Str := dedupKeepFirstAux [] xs

/-! ## The anchor pattern `(^|,)\s*"?RE"?\s*(,|$)` (case-insensitive)

`converter.convert_rows` and `gui.convert_and_save` both compile this
pattern and use `search` / the first `finditer` hit; the head of the line
up to and including the match end is kept verbatim.  The pattern is
deterministic once maximal munch for `\s*` and the forced optional quotes
are taken into account, because none of `"`,`R`,`,` are whitespace. -/

/-- The forced optional quote `"?`: consumed quote (if any) and rest. -/
def takeQuote (s : Str) : Str × Str :=
  match s with
  | c :: r => if c = '"' then ([c], r) else ([], s)
  | [] => ([], s)

/-- Match `\s*"?RE"?\s*(,|$)` at the start of `s`; returns
`(consumed, rest)`. -/
def reAfterBoundary (s : Str) : Option (Str × Str) :=
  let p1 := splitWs s
  let q1 := takeQuote p1.2
  match q1.2 with
  | r :: e :: s3 =>
    if (r == 'R' || r == 'r') && (e == 'E' || e == 'e') then
      let q2 := takeQuote s3
      let p2 := splitWs q2.2
      match p2.2 with
      | c :: s5 =>
        if c = ',' then some (p1.1 ++ q1.1 ++ [r, e] ++ q2.1 ++ p2.1 ++ [c], s5)
        else none
      | [] => some (p1.1 ++ q1.1 ++ [r, e] ++ q2.1 ++ p2.1, [])
    else none
  | _ => none

/-- Match the full anchor pattern at one position; `atStart` tells whether
the `^` alternative of `(^|,)` is available. -/
def reFieldAt (atStart : Bool) (s : Str) : Option (Str × Str) :=
  match (if atStart then reAfterBoundary s else none) with
  | some cr => some cr
  | none =>
    match s with
    | c :: s1 =>
      if c = ',' then
        match reAfterBoundary s1 with
        | some cr => some (c :: cr.1, cr.2)
        | none => none
      else none
    | [] => none

/-- `re.search` scan: try each start position left to right; returns the
end offset of the first match. -/
def reSearchAux (atStart : Bool) (pos : Nat) (s : Str) : Option Nat :=
  match reFieldAt atStart s with
  | some cr => some (pos + cr.1.length)
  | none =>
    match s with
    | [] => none
    | _ :: rest => reSearchAux false (pos + 1) rest

/-- End offset (`m_re.end()`) of the first anchor match in a line, if any. -/
def reFieldSearch (s : Str) : Option Nat := reSearchAux true 0 s

/-! ## The primary detection pattern (trailing-comma mode)

`highlighter._build_regex` with `detect_mode = 0` compiles
`,\s*([0-9\-]{L1}|[0-9\-]{L2}|...)\s*,,...,` where the alternation runs
over the allowed code lengths (in list order) and the literal tail is
`trailing_commas` commas.  Since `,` is not whitespace and `[0-9\-]`
contains no whitespace, both `\s*` are maximal-munch; the alternation is
tried in order with full backtracking into the rest of the pattern. -/

/-- Try each allowed length in order: exactly `L` class characters, then
`\s*`, then the literal commas.  Returns `(code, ws2, rest)`. -/
def tryLens (tc : Nat) (s : Str) : List Nat → Option (Str × Str × Str)
  | [] => none
  | L :: Ls =>
    match takeClass isCodeChar L s with
    | some (code, r1) =>
      let p := splitWs r1
      match dropCommas tc p.2 with
      | some rest => some (code, p.1, rest)
      | none => tryLens tc s Ls
    | none => tryLens tc s Ls

/-- Attempt the primary pattern at the start of `s`.  Returns
`(consumed, capturedCode, rest)`. -/
def primMatchHere (lengths : List Nat) (tc : Nat) (s : Str) : Option (Str × Str × Str) :=
  match s with
  | c0 :: s1 =>
    if c0 = ',' then
      let p := splitWs s1
      match tryLens tc p.2 lengths with
      | some (code, w2, rest) =>
        some (c0 :: (p.1 ++ code ++ w2 ++ commas tc), code, rest)
      | none => none
    else none
  | [] => none

/-! ## The custom-symbol pattern

`highlighter._build_regex` with `detect_mode = 1` compiles
`,\s*([0-9\-]{1,N})\s*SYM` with `SYM = re.escape(custom_sym or "*")`:
the group is greedy (longest first), and the `\s*` before the literal
symbol backtracks (the symbol may itself start with whitespace). -/

/-- Backtrack the `\s*` before the literal symbol: try the longest
whitespace run first, then give characters back one at a time.
`wRev` is the reversed whitespace still consumed. -/
def wsBack (sym : Str) : Str → Str → Option (Str × Str)
  | r, [] =>
    if List.isPrefixOf sym r then some ([], r.drop sym.length) else none
  | r, c :: wRev' =>
    if List.isPrefixOf sym r then some ((c :: wRev').reverse, r.drop sym.length)
    else wsBack sym (c :: r) wRev'

/-- Greedy `{1,k}` group: try length `k` first, then shorter.  Returns
`(code, ws2, rest)` where `rest` follows the consumed symbol. -/
def trySymDown (sym : Str) (s : Str) : Nat → Option (Str × Str × Str)
  | 0 => none
  | k + 1 =>
    match takeClass isCodeChar (k + 1) s with
    | some (code, r1) =>
      let p := splitWs r1
      match wsBack sym p.2 p.1.reverse with
      | some (w2, rest) => some (code, w2, rest)
      | none => trySymDown sym s k
    | none => trySymDown sym s k

/-- Attempt the custom-symbol pattern at the start of `s`. -/
def symMatchHere (n : Nat) (sym : Str) (s : Str) : Option (Str × Str × Str) :=
  match s with
  | c0 :: s1 =>
    if c0 = ',' then
      let p := splitWs s1
      match trySymDown sym p.2 n with
      | some (code, w2, rest) =>
        some (c0 :: (p.1 ++ code ++ w2 ++ sym), code, rest)
      | none => none
    else none
  | [] => none

/-! ## The fallback pattern

`converter.convert_rows` compiles
`FALLBACK_PAT_10 = (?<=,)"?(\d{10})"?(?=TC(?:,|$))` where `TC` is the
trailing commas.  The lookbehind needs the previous character of the
scanned string; the optional quotes are forced (a quote can satisfy
neither `\d` nor the comma lookahead), and the lookahead consumes
nothing. -/

/-- The lookahead `(?=TC(?:,|$))`. -/
def fbLookahead (tc : Nat) (s : Str) : Bool :=
  match dropCommas tc s with
  | some r =>
    match r with
    | ',' :: _ => true
    | [] => true
    | _ => false
  | none => false

/-- Attempt the fallback pattern given the previous character `prev` of
the scanned string (`none` at position 0). -/
def fbMatchHere (tc : Nat) (prev : Option Char) (s : Str) : Option (Str × Str × Str) :=
  if prev = some ',' then
    let q1 := takeQuote s
    match takeClass isDigitChar 10 q1.2 with
    | some (ds, r1) =>
      let q2 := takeQuote r1
      if fbLookahead tc q2.2 then some (q1.1 ++ ds ++ q2.1, ds, q2.2)
      else none
    | none => none
  else none

/-! ## `re.sub` with a logging callback

All three substitutions in `converter.convert_rows` (and the one in
`gui.convert_and_save`) scan left to right, replace each non-overlapping
match of the pattern, and continue after the match end in the original
string.  The callback receives group 1 (`old`); the engine also returns
the list of all captured group-1 texts in match order (the list Python
builds through the callback's side effects).  The fuel equals the length
of the scanned string, which suffices because every match of the three
patterns above consumes at least one character. -/

def subFuel (m : Option Char → Str → Option (Str × Str × Str))
    (repl : Str → Str) : Nat → Option Char → Str → Str × List Str
  | 0, _, s => (s, [])
  | fuel + 1, prev, s =>
    match m prev s with
    | some t =>
      let r := subFuel m repl fuel t.1.getLast? t.2.2
      (repl t.2.1 ++ r.1, t.2.1 :: r.2)
    | none =>
      match s with
      | [] => ([], [])
      | c :: cs =>
        let r := subFuel m repl fuel (some c) cs
        (c :: r.1, r.2)

/-- `pattern.sub(repl, s)` together with the group-1 log. -/
def pySub (m : Option Char → Str → Option (Str × Str × Str))
    (repl : Str → Str) (s : Str) : Str × List Str :=
  subFuel m repl s.length none s

/-- Primary-pattern substitution with replacement `f",{fn(old)}{tc}"`. -/
def primSubWith (lengths : List Nat) (tc : Nat) (fn : Str → Str) (s : Str) :
    Str × List Str :=
  pySub (fun _ t => primMatchHere lengths tc t) (fun c => ',' :: (fn c ++ commas tc)) s

/-- Fallback-pattern substitution with replacement `f",{fn(old)}{tc}"`. -/
def fbSubWith (tc : Nat) (fn : Str → Str) (s : Str) : Str × List Str :=
  pySub (fbMatchHere tc) (fun c => ',' :: (fn c ++ commas tc)) s

/-! ## `converter.convert_rows` -/

/-- One entry of `changes_rows`:
`[line_no, original_code, converted_code, original_line, converted_line, method]`.
`convLine` is `none` while the Python code holds `None` there. -/
structure ChangeRec where
  lineNo : Nat
  origCode : Str
  convCode : Str
  origLine : Str
  convLine : Option Str
  method : String
deriving DecidableEq, Repr

/-- One entry of `error_rows`:
`[line_no, matched_codes, error_reason, original_line]`. -/
structure ErrRec where
  lineNo : Nat
  matchedCodes : Str
  reason : String
  origLine : Str
deriving DecidableEq, Repr

/-- The body of `convert_rows` for one row that contains an anchor:
`line` is the joined row, `k = m_re.end()` the anchor end offset.
Mirrors `converter.py` lines 44-128. -/
def convertLineAnchored (lengths : List Nat) (tc : Nat)
    (primary_fn fallback_fn : Str → Str) (idx : Nat) (line : Str) (k : Nat) :
    Str × List ChangeRec × List ErrRec :=
  let head := line.take k
  let tail := line.drop k
  let prim := primSubWith lengths tc primary_fn tail
  if prim.2 = [] then
    -- 主検出0件: fallback only
    let fb := fbSubWith tc fallback_fn tail
    let fbChanged := fb.2.filter (fun c => fallback_fn c ≠ c)
    if fbChanged = [] then
      (line, [], [⟨idx, [], "no_code_detected", line⟩])
    else
      let fixed := head ++ fb.1
      (fixed, fbChanged.map (fun old =>
        ⟨idx, old, fallback_fn old, line, some fixed, "fallback"⟩), [])
  else
    -- 第1段: 通常変換
    let changed1 := prim.2.filter (fun c => primary_fn c ≠ c)
    let fixed1 := head ++ prim.1
    if changed1 = [] ∧ fixed1 = line then
      -- 第2段: フォールバック (primary pattern with fallback_fn, then
      -- the 10-digit pattern on the result)
      let s2a := primSubWith lengths tc fallback_fn tail
      let s2b := fbSubWith tc fallback_fn s2a.1
      let changed2 := s2a.2.filter (fun c => fallback_fn c ≠ c)
        ++ s2b.2.filter (fun c => fallback_fn c ≠ c)
      let fixed2 := head ++ s2b.1
      if changed2 ≠ [] ∧ fixed2 ≠ line then
        (fixed2, changed2.map (fun old =>
          ⟨idx, old, fallback_fn old, line, some fixed2, "fallback"⟩), [])
      else
        (line, changed2.map (fun old =>
          ⟨idx, old, fallback_fn old, line, none, "fallback"⟩),
         [⟨idx, joinSpace (dedupKeepFirst prim.2), "no_change", line⟩])
    else
      (fixed1, changed1.map (fun old =>
        ⟨idx, old, primary_fn old, line, some fixed1, "normal"⟩), [])

/-- One iteration of the `convert_rows` loop: join the row, search for the
anchor, pass through untouched if absent. -/
def convertLine (lengths : List Nat) (tc : Nat)
    (primary_fn fallback_fn : Str → Str) (idx : Nat) (row : List Str) :
    Str × List ChangeRec × List ErrRec :=
  let line := joinComma row
  match reFieldSearch line with
  | none => (line, [], [])
  | some k => convertLineAnchored lengths tc primary_fn fallback_fn idx line k

/-- The loop of `convert_rows`, with 1-based line numbers starting at
`idx`. -/
def convertRowsAux (lengths : List Nat) (tc : Nat)
    (primary_fn fallback_fn : Str → Str) (idx : Nat) :
    List (List Str) → List Str × List ChangeRec × List ErrRec
  | [] => ([], [], [])
  | row :: rest =>
    let r := convertLine lengths tc primary_fn fallback_fn idx row
    let rs := convertRowsAux lengths tc primary_fn fallback_fn (idx + 1) rest
    (r.1 :: rs.1, r.2.1 ++ rs.2.1, r.2.2 ++ rs.2.2)

/-- `converter.convert_rows`: returns `(out_lines, changes_rows, error_rows)`. -/
def convertRows (lengths : List Nat) (tc : Nat)
    (primary_fn fallback_fn : Str → Str) (rows : List (List Str)) :
    List Str × List ChangeRec × List ErrRec :=
  convertRowsAux lengths tc primary_fn fallback_fn 1 rows

/-! ## GUI conversion utilities -/

/-- Python `str.zfill(w)`: left-pad with zeros to width `w`, keeping a
leading `+`/`-` sign in front of the inserted zeros. -/
def zfill (w : Nat) (s : Str) : Str :=
  if w ≤ s.length then s
  else
    match s with
    | c :: cs =>
      if c = '+' ∨ c = '-' then c :: (List.replicate (w - s.length) '0' ++ cs)
      else List.replicate (w - s.length) '0' ++ s
    | [] => List.replicate w '0'

/-- Python `s[-L:]` (for `L = 0` this is the whole string). -/
def pySliceLast (L : Nat) (s : Str) : Str :=
  if L = 0 then s else s.drop (s.length - L)

/-- `gui._normalize_code`: convert to exactly `L` digits — cut from the
left when too long, else `zfill`. -/
def normalize_code (L : Nat) (code : Str) : Str :=
  if L < code.length then pySliceLast L code
  else zfill L code

/-- `gui._strip_branch`: drop a registered trailing branch suffix when the
branch mode and the exact width `L + mode` match. -/
def strip_branch (L : Nat) (mode : Nat) (suf1 suf2 : List Str) (code : Str) : Str :=
  if mode = 1 ∧ code.length = L + 1 ∧ suf1.contains (code.drop (code.length - 1)) then
    code.take (code.length - 1)
  else if mode = 2 ∧ code.length = L + 2 ∧ suf2.contains (code.drop (code.length - 2)) then
    code.take (code.length - 2)
  else code

/-- `gui._format_code`: hyphen-suffix removal (when the right part is a
registered suffix), then `_strip_branch`, then `_normalize_code`. -/
def format_code (brMode : Nat) (L convL : Nat) (suf1 suf2 : List Str) (raw : Str) : Str :=
  let raw1 :=
    if raw.contains '-' then
      let left := raw.takeWhile (fun c => c != '-')
      let right := (raw.dropWhile (fun c => c != '-')).drop 1
      if (brMode = 2 ∧ suf2.contains right) ∨ (brMode = 1 ∧ suf1.contains right) then left
      else raw
    else raw
  normalize_code convL (strip_branch L brMode suf1 suf2 raw1)

/-- Python `str.strip()` (whitespace on both ends). -/
def pyStrip (s : Str) : Str :=
  ((s.dropWhile pyIsSpace).reverse.dropWhile pyIsSpace).reverse

/-- Python `str.isdigit()` on the ASCII range (`False` for the empty
string). -/
def pyIsDigit (s : Str) : Bool := !s.isEmpty && s.all isDigitChar

/-- `gui._format_code_force_branch_general`: the generic fallback — strip,
leave non-digit input alone, else take the rightmost `out_len` digits and
zero-fill.  `in_len` is accepted but unused, as in the source. -/
def format_code_force_branch_general (raw : Str) (in_len out_len : Nat) : Str :=
  let s := pyStrip raw
  if pyIsDigit s then zfill out_len (pySliceLast out_len s)
  else s

/-! ## `highlighter._build_regex` (PatternBuilder) -/

/-- The shape of the compiled detection pattern: either trailing-comma
mode (allowed code lengths, comma count) or custom-symbol mode (maximal
digit count, literal symbol). -/
inductive PatSpec where
  | commaPat (lengths : List Nat) (tc : Nat)
  | symPat (nDigits : Nat) (sym : Str)
deriving DecidableEq, Repr

/-- Python `re.error` raised by `re.compile` on an invalid pattern. -/
structure ReError where
  msg : String
deriving DecidableEq, Repr

/-- `highlighter._build_regex`: build the detection pattern.  In
trailing-comma mode (`detect_mode = 0`) the allowed length set is used
when non-empty (`self.allowed_code_lengths or [n_digits]`), a
non-positive `trailing_commas` simply yields an empty literal tail, and
`[0-9\-]{0}` is a valid (empty-width) quantifier, so `re.compile`
accepts every parameter combination.  In custom-symbol mode the group
quantifier is `{1,n_digits}`, which `re.compile` rejects for
`n_digits = 0` with `re.error("min repeat greater than max repeat")`;
that compile-time validation is embedded here as the error branch.  An
empty symbol defaults to `"*"` (`re.escape(custom_sym or "*")`). -/
def build_regex (allowed : Option (List Nat)) (n_digits trailing_commas : Nat)
    (detect_mode : Nat) (custom_sym : Str) : Except ReError PatSpec :=
  if detect_mode = 0 then
    Except.ok (PatSpec.commaPat
      (match allowed with
        | some (L :: Ls) => L :: Ls
        | _ => [n_digits])
      trailing_commas)
  else
    if n_digits = 0 then
      Except.error ⟨"min repeat greater than max repeat"⟩
    else
      Except.ok (PatSpec.symPat n_digits
        (if custom_sym.isEmpty then ['*'] else custom_sym))

/-- `gui.MAX_TRAILING_COMMAS`. -/
def MAX_TRAILING_COMMAS : Nat := 30

/-- `gui._apply_settings`: the trailing-comma count entered in the dialog
is clamped with `max(1, min(MAX_TRAILING_COMMAS, tc))`. -/
def apply_settings_trailing (tc : Int) : Int :=
  max 1 (min (MAX_TRAILING_COMMAS : Int) tc)

/-! ## `gui.convert_and_save` — custom-symbol mode

The per-match value conversion of `convert_and_save._repl`: `_format_code`
first, then — when that was a no-op, a branch mode is on, the code is all
digits and has exactly the suffixed length — the forced branch removal.
The pattern built by `Highlighter._build_regex` has a single unnamed
group, so in custom-symbol mode `m.group('sym')` raises, `m.lastindex`
is `1`, and the re-inserted suffix falls back to the trailing commas. -/

def gui_repl_value (brMode L convL : Nat) (suf1 suf2 : List Str) (old : Str) : Str :=
  let new := format_code brMode L convL suf1 suf2 old
  let drop := if brMode = 2 then 2 else if brMode = 1 then 1 else 0
  if new = old ∧ 0 < drop ∧ pyIsDigit old = true ∧ old.length = L + drop then
    let forced := normalize_code convL (old.take (old.length - drop))
    if forced ≠ old then forced else new
  else new

/-- One row of `gui.convert_and_save` in custom-symbol mode
(`detect_mode = 1`): the replacement emitted for each match is
`f",{new}{suffix}"` with `suffix` resolved to the trailing commas as
described above. -/
def gui_convert_line_sym (n : Nat) (sym : Str) (tc : Nat)
    (brMode L convL : Nat) (suf1 suf2 : List Str) (row : List Str) : Str :=
  let line := joinComma row
  match reFieldSearch line with
  | none => line
  | some k =>
    let head := line.take k
    let tail := line.drop k
    head ++ (pySub (fun _ s => symMatchHere n sym s)
      (fun old => ',' :: (gui_repl_value brMode L convL suf1 suf2 old ++ commas tc))
      tail).1

/-! ## Soundness lemmas for the scanners -/

theorem splitWs_append (s : Str) : (splitWs s).1 ++ (splitWs s).2 = s := by
  induction s with
  | nil => rfl
  | cons c cs ih =>
    simp only [splitWs]
    by_cases h : pyIsSpace c
    · simp [h, ih]
    · simp [h]

theorem splitWs_ws (s : Str) : ∀ c ∈ (splitWs s).1, pyIsSpace c = true := by
  induction s with
  | nil => intro c hc; simp [splitWs] at hc
  | cons c cs ih =>
    intro d hd
    simp only [splitWs] at hd
    by_cases h : pyIsSpace c
    · simp [h] at hd
      rcases hd with rfl | hd
      · exact h
      · exact ih d hd
    · simp [h] at hd

theorem takeClass_sound (p : Char → Bool) :
    ∀ (n : Nat) (s cd r : Str), takeClass p n s = some (cd, r) →
      cd ++ r = s ∧ cd.length = n ∧ ∀ c ∈ cd, p c = true := by
  intro n
  induction n with
  | zero =>
    intro s cd r h
    simp only [takeClass, Option.some.injEq, Prod.mk.injEq] at h
    obtain ⟨h1, h2⟩ := h
    subst h1; subst h2
    simp
  | succ n ih =>
    intro s cd r h
    match s with
    | [] => simp [takeClass] at h
    | c :: cs =>
      simp only [takeClass] at h
      by_cases hc : p c
      · rw [if_pos hc] at h
        cases htc : takeClass p n cs with
        | none => rw [htc] at h; exact absurd h (by simp)
        | some pr =>
          obtain ⟨cd', r'⟩ := pr
          rw [htc] at h
          simp only [Option.some.injEq, Prod.mk.injEq] at h
          obtain ⟨h1, h2⟩ := h
          subst h2
          obtain ⟨ha, hl, hall⟩ := ih cs cd' r' htc
          subst h1
          refine ⟨by simp [ha], by simp [hl], ?_⟩
          intro d hd
          rcases hd with _ | hd
          · exact hc
          · exact hall d (by assumption)
      · rw [if_neg hc] at h; exact absurd h (by simp)

theorem dropCommas_sound :
    ∀ (n : Nat) (s r : Str), dropCommas n s = some r →
      List.replicate n ',' ++ r = s := by
  intro n
  induction n with
  | zero =>
    intro s r h
    simp only [dropCommas, Option.some.injEq] at h
    subst h; simp
  | succ n ih =>
    intro s r h
    match s with
    | [] => simp [dropCommas] at h
    | c :: cs =>
      simp only [dropCommas] at h
      by_cases hc : c = ','
      · rw [if_pos hc] at h
        subst hc
        rw [List.replicate_succ]
        simpa using ih cs r h
      · rw [if_neg hc] at h; exact absurd h (by simp)

theorem takeQuote_append (s : Str) : (takeQuote s).1 ++ (takeQuote s).2 = s := by
  match s with
  | [] => rfl
  | c :: r =>
    simp only [takeQuote]
    by_cases h : c = '"'
    · simp [h]
    · simp [h]

theorem tryLens_sound (tc : Nat) :
    ∀ (Ls : List Nat) (s code w2 rest : Str), tryLens tc s Ls = some (code, w2, rest) →
      code ++ w2 ++ commas tc ++ rest = s ∧
      (∀ c ∈ code, isCodeChar c = true) ∧ (∀ c ∈ w2, pyIsSpace c = true) := by
  intro Ls
  induction Ls with
  | nil => intro s code w2 rest h; simp [tryLens] at h
  | cons L Ls ih =>
    intro s code w2 rest h
    simp only [tryLens] at h
    cases htk : takeClass isCodeChar L s with
    | none => rw [htk] at h; exact ih s code w2 rest h
    | some pr =>
      obtain ⟨code', r1⟩ := pr
      rw [htk] at h
      simp only at h
      cases hdc : dropCommas tc (splitWs r1).2 with
      | none => rw [hdc] at h; exact ih s code w2 rest h
      | some rest' =>
        rw [hdc] at h
        simp only [Option.some.injEq, Prod.mk.injEq] at h
        obtain ⟨h1, h2, h3⟩ := h
        obtain ⟨ha, _, hall⟩ := takeClass_sound isCodeChar L s code' r1 htk
        have hws := splitWs_append r1
        have hdca : commas tc ++ rest' = (splitWs r1).2 := by
          rw [commas]; exact dropCommas_sound tc (splitWs r1).2 rest' hdc
        refine ⟨?_, ?_, ?_⟩
        · rw [← h1, ← h2, ← h3]
          calc code' ++ (splitWs r1).1 ++ commas tc ++ rest'
              = code' ++ ((splitWs r1).1 ++ (commas tc ++ rest')) := by simp
            _ = code' ++ ((splitWs r1).1 ++ (splitWs r1).2) := by rw [hdca]
            _ = code' ++ r1 := by rw [hws]
            _ = s := ha
        · rw [← h1]; exact hall
        · rw [← h2]; exact splitWs_ws r1

theorem primMatchHere_sound (lengths : List Nat) (tc : Nat) (s cons code rest : Str)
    (h : primMatchHere lengths tc s = some (cons, code, rest)) :
    cons ++ rest = s ∧ cons.count ',' = 1 + tc ∧ cons ≠ [] := by
  match s with
  | [] => simp [primMatchHere] at h
  | c0 :: s1 =>
    simp only [primMatchHere] at h
    by_cases hc : c0 = ','
    · rw [if_pos hc] at h
      cases htl : tryLens tc (splitWs s1).2 lengths with
      | none => rw [htl] at h; exact absurd h (by simp)
      | some pr =>
        obtain ⟨code', w2, rest'⟩ := pr
        rw [htl] at h
        simp only [Option.some.injEq, Prod.mk.injEq] at h
        obtain ⟨h1, h2, h3⟩ := h
        obtain ⟨ha, hcode, hw2⟩ := tryLens_sound tc lengths (splitWs s1).2 code' w2 rest' htl
        have hws := splitWs_append s1
        refine ⟨?_, ?_, ?_⟩
        · rw [← h1, ← h3]
          simp only [List.cons_append, List.cons.injEq, true_and]
          calc (splitWs s1).1 ++ code' ++ w2 ++ commas tc ++ rest'
              = (splitWs s1).1 ++ (code' ++ w2 ++ commas tc ++ rest') := by simp
            _ = (splitWs s1).1 ++ (splitWs s1).2 := by rw [ha]
            _ = s1 := hws
        · rw [← h1]
          have hz1 : List.count ',' (splitWs s1).1 = 0 := by
            rw [List.count_eq_zero]
            intro hmem
            have := splitWs_ws s1 ',' hmem
            simp [pyIsSpace] at this
          have hz2 : List.count ',' code' = 0 := by
            rw [List.count_eq_zero]
            intro hmem
            have := hcode ',' hmem
            simp [isCodeChar, isDigitChar] at this
          have hz3 : List.count ',' w2 = 0 := by
            rw [List.count_eq_zero]
            intro hmem
            have := hw2 ',' hmem
            simp [pyIsSpace] at this
          subst hc
          simp [List.count_cons, List.count_append, hz1, hz2, hz3, commas,
            List.count_replicate, Nat.add_comm]
        · rw [← h1]; simp
    · rw [if_neg hc] at h; exact absurd h (by simp)

theorem reAfterBoundary_append (s cns rest : Str)
    (h : reAfterBoundary s = some (cns, rest)) : cns ++ rest = s := by
  simp only [reAfterBoundary] at h
  split at h
  next r e s3 heq =>
    split at h
    next hre =>
      split at h
      next c s5 heq2 =>
        split at h
        next hcomma =>
          simp only [Option.some.injEq, Prod.mk.injEq] at h
          obtain ⟨h1, h2⟩ := h
          rw [← h1, ← h2]
          have e1 := splitWs_append s
          have e2 := takeQuote_append (splitWs s).2
          have e3 := takeQuote_append s3
          have e4 := splitWs_append (takeQuote s3).2
          conv_rhs => rw [← e1, ← e2, heq, ← e3, ← e4, heq2]
          simp
        next => exact absurd h (by simp)
      next heq2 =>
        simp only [Option.some.injEq, Prod.mk.injEq] at h
        obtain ⟨h1, h2⟩ := h
        rw [← h1, ← h2]
        have e1 := splitWs_append s
        have e2 := takeQuote_append (splitWs s).2
        have e3 := takeQuote_append s3
        have e4 := splitWs_append (takeQuote s3).2
        conv_rhs => rw [← e1, ← e2, heq, ← e3, ← e4, heq2]
        simp
    next => exact absurd h (by simp)
  next => exact absurd h (by simp)

theorem reFieldAt_append (b : Bool) (s cns rest : Str)
    (h : reFieldAt b s = some (cns, rest)) : cns ++ rest = s := by
  unfold reFieldAt at h
  cases hb : (if b then reAfterBoundary s else none) with
  | some cr =>
    obtain ⟨c1, r1⟩ := cr
    rw [hb] at h
    simp only [Option.some.injEq, Prod.mk.injEq] at h
    obtain ⟨h1, h2⟩ := h
    rw [← h1, ← h2]
    cases b with
    | true =>
      simp only [if_true] at hb
      exact reAfterBoundary_append s c1 r1 hb
    | false => simp at hb
  | none =>
    rw [hb] at h
    dsimp only at h
    cases s with
    | nil => exact absurd h (by simp)
    | cons c s1 =>
      dsimp only at h
      by_cases hc : c = ','
      · rw [if_pos hc] at h
        cases hra : reAfterBoundary s1 with
        | some cr =>
          obtain ⟨c1, r1⟩ := cr
          rw [hra] at h
          simp only [Option.some.injEq, Prod.mk.injEq] at h
          obtain ⟨h1, h2⟩ := h
          rw [← h1, ← h2]
          have := reAfterBoundary_append s1 c1 r1 hra
          simp [this]
        | none => rw [hra] at h; exact absurd h (by simp)
      · rw [if_neg hc] at h; exact absurd h (by simp)

theorem reSearchAux_le : ∀ (s : Str) (b : Bool) (pos k : Nat),
    reSearchAux b pos s = some k → k ≤ pos + s.length := by
  intro s
  induction s with
  | nil =>
    intro b pos k h
    rw [reSearchAux] at h
    cases hat : reFieldAt b [] with
    | some cr =>
      rw [hat] at h
      dsimp only at h
      have ha := reFieldAt_append b [] cr.1 cr.2 (by simpa using hat)
      have hnil : cr.1 = [] := by
        cases hcr : cr.1 with
        | nil => rfl
        | cons x xs => rw [hcr] at ha; simp at ha
      rw [hnil] at h
      simp only [List.length_nil, Option.some.injEq] at h
      omega
    | none => rw [hat] at h; exact absurd h (by simp)
  | cons c cs ih =>
    intro b pos k h
    rw [reSearchAux] at h
    cases hat : reFieldAt b (c :: cs) with
    | some cr =>
      rw [hat] at h
      dsimp only at h
      simp only [Option.some.injEq] at h
      have ha := reFieldAt_append b (c :: cs) cr.1 cr.2 (by simpa using hat)
      have hlen : cr.1.length ≤ (c :: cs).length := by
        rw [← ha]; simp
      simp only [List.length_cons] at hlen ⊢
      omega
    | none =>
      rw [hat] at h
      dsimp only at h
      have := ih false (pos + 1) k h
      simp only [List.length_cons]
      omega

theorem reFieldSearch_le (s : Str) (k : Nat) (h : reFieldSearch s = some k) :
    k ≤ s.length := by
  have := reSearchAux_le s true 0 k h
  omega

/-! ## Engine and pipeline lemmas -/

theorem subFuel_succ (m : Option Char → Str → Option (Str × Str × Str))
    (repl : Str → Str) (fuel : Nat) (prev : Option Char) (s : Str) :
    subFuel m repl (fuel + 1) prev s =
      match m prev s with
      | some t =>
        (repl t.2.1 ++ (subFuel m repl fuel t.1.getLast? t.2.2).1,
         t.2.1 :: (subFuel m repl fuel t.1.getLast? t.2.2).2)
      | none =>
        match s with
        | [] => ([], [])
        | c :: cs =>
          (c :: (subFuel m repl fuel (some c) cs).1,
           (subFuel m repl fuel (some c) cs).2) := rfl

theorem subFuel_count_comma (m : Option Char → Str → Option (Str × Str × Str))
    (repl : Str → Str) (n : Nat)
    (hsound : ∀ prev s cons code rest, m prev s = some (cons, code, rest) →
      cons ++ rest = s ∧ cons.count ',' = n) :
    ∀ (fuel : Nat) (prev : Option Char) (s : Str),
      (∀ code ∈ (subFuel m repl fuel prev s).2, (repl code).count ',' = n) →
      ((subFuel m repl fuel prev s).1).count ',' = s.count ',' := by
  intro fuel
  induction fuel with
  | zero => intro prev s _; rfl
  | succ fuel ih =>
    intro prev s hcnt
    rw [subFuel_succ]
    rw [subFuel_succ] at hcnt
    cases hms : m prev s with
    | some x =>
      obtain ⟨cons, code, rest⟩ := x
      rw [hms] at hcnt
      dsimp only at hcnt ⊢
      obtain ⟨ha, hc⟩ := hsound prev s cons code rest hms
      have hhd : (repl code).count ',' = n := hcnt code (by simp)
      have htl : ∀ c ∈ (subFuel m repl fuel cons.getLast? rest).2,
          (repl c).count ',' = n := by
        intro c hcmem
        exact hcnt c (by simp [hcmem])
      rw [List.count_append, ih cons.getLast? rest htl, ← ha,
        List.count_append, hc, hhd]
    | none =>
      rw [hms] at hcnt
      dsimp only at hcnt ⊢
      cases s with
      | nil => rfl
      | cons c cs =>
        dsimp only at hcnt ⊢
        simp [List.count_cons, ih (some c) cs hcnt]

theorem primSubWith_count (lengths : List Nat) (tc : Nat) (fn : Str → Str)
    (s : Str)
    (hfn : ∀ c ∈ (primSubWith lengths tc fn s).2, (fn c).count ',' = 0) :
    ((primSubWith lengths tc fn s).1).count ',' = s.count ',' := by
  unfold primSubWith pySub
  refine subFuel_count_comma _ _ (1 + tc) ?_ s.length none s ?_
  · intro prev t cons code rest hms
    obtain ⟨ha, hc, _⟩ := primMatchHere_sound lengths tc t cons code rest hms
    exact ⟨ha, hc⟩
  · intro code hmem
    have h0 : (fn code).count ',' = 0 := hfn code hmem
    simp [List.count_cons, List.count_append, commas, List.count_replicate, h0]
    omega

theorem take_head_append (line t : Str) (k : Nat) (hk : k ≤ line.length) :
    (line.take k ++ t).take k = line.take k := by
  have h1 : (line.take k).length = k := by
    rw [List.length_take]; omega
  rw [List.take_append_eq_append_take, h1]
  simp [List.take_take]

theorem convertLineAnchored_fst (lengths : List Nat) (tc : Nat)
    (pf ff : Str → Str) (idx : Nat) (line : Str) (k : Nat) :
    (convertLineAnchored lengths tc pf ff idx line k).1 = line ∨
    ∃ t, (convertLineAnchored lengths tc pf ff idx line k).1 = line.take k ++ t := by
  simp only [convertLineAnchored]
  split
  · split
    · exact Or.inl rfl
    · exact Or.inr ⟨_, rfl⟩
  · split
    · split
      · exact Or.inr ⟨_, rfl⟩
      · exact Or.inl rfl
    · exact Or.inr ⟨_, rfl⟩

theorem convertLine_eq_anchored (lengths : List Nat) (tc : Nat)
    (pf ff : Str → Str) (idx : Nat) (row : List Str) (k : Nat)
    (hk : reFieldSearch (joinComma row) = some k) :
    convertLine lengths tc pf ff idx row =
      convertLineAnchored lengths tc pf ff idx (joinComma row) k := by
  simp only [convertLine]
  rw [hk]

theorem convertLine_eq_pass (lengths : List Nat) (tc : Nat)
    (pf ff : Str → Str) (idx : Nat) (row : List Str)
    (hk : reFieldSearch (joinComma row) = none) :
    convertLine lengths tc pf ff idx row = (joinComma row, [], []) := by
  simp only [convertLine]
  rw [hk]

theorem convertRowsAux_length (lengths : List Nat) (tc : Nat) (pf ff : Str → Str) :
    ∀ (rows : List (List Str)) (idx : Nat),
      (convertRowsAux lengths tc pf ff idx rows).1.length = rows.length := by
  intro rows
  induction rows with
  | nil => intro idx; rfl
  | cons r rs ih => intro idx; simp [convertRowsAux, ih]

theorem convertRowsAux_getD (lengths : List Nat) (tc : Nat) (pf ff : Str → Str) :
    ∀ (rows : List (List Str)) (idx i : Nat), i < rows.length →
      (convertRowsAux lengths tc pf ff idx rows).1.getD i [] =
        (convertLine lengths tc pf ff (idx + i) (rows.getD i [])).1 := by
  intro rows
  induction rows with
  | nil => intro idx i h; simp at h
  | cons r rs ih =>
    intro idx i h
    cases i with
    | zero => simp [convertRowsAux]
    | succ i =>
      have he : idx + (i + 1) = idx + 1 + i := by omega
      simp only [convertRowsAux, List.getD_cons_succ, he]
      exact ih (idx + 1) i (by simpa using h)

/-! ## Claim theorems -/

/-- C1: Head preservation.  For every input row whose joined line contains
an anchor with end offset `k`, the output line produced by
`converter.convert_rows` for that row agrees with the input line on the
first `k` characters, in every outcome (primary rewrite, fallback rewrite,
or error passthrough). -/
theorem C1_head_preservation (lengths : List Nat) (tc : Nat) (pf ff : Str → Str)
    (rows : List (List Str)) (i k : Nat) (hi : i < rows.length)
    (hk : reFieldSearch (joinComma (rows.getD i [])) = some k) :
    ((convertRows lengths tc pf ff rows).1.getD i []).take k =
      (joinComma (rows.getD i [])).take k := by
  unfold convertRows
  rw [convertRowsAux_getD lengths tc pf ff rows 1 i hi]
  rw [convertLine_eq_anchored lengths tc pf ff (1 + i) (rows.getD i []) k hk]
  rcases convertLineAnchored_fst lengths tc pf ff (1 + i)
      (joinComma (rows.getD i [])) k with h | ⟨t, h⟩
  · rw [h]
  · rw [h]
    exact take_head_append _ t k (reFieldSearch_le _ k hk)

/-- Witness for C1 at a concrete anchored row. -/
theorem C1_head_preservation_witness :
    reFieldSearch (joinComma [['R','E'], ['1'],
      ['0','0','0','0','0','0','4','6','8','0'], [], []]) = some 3 ∧
    ((convertRows [10] 2 (normalize_code 6) (normalize_code 6)
        [[['R','E'], ['1'], ['0','0','0','0','0','0','4','6','8','0'], [], []]]).1.getD 0 []).take 3 =
      (joinComma [['R','E'], ['1'],
        ['0','0','0','0','0','0','4','6','8','0'], [], []]).take 3 :=
  ⟨by decide, C1_head_preservation [10] 2 (normalize_code 6) (normalize_code 6)
    [[['R','E'], ['1'], ['0','0','0','0','0','0','4','6','8','0'], [], []]] 0 3
    (by decide) (by decide)⟩

/-- C10: Row correspondence.  `converter.convert_rows` emits exactly one
output line per input row, in input order: the `i`-th output line is
either the `i`-th joined input line unchanged, or a rewrite that keeps the
head up to the anchor end offset. -/
theorem C10_row_correspondence (lengths : List Nat) (tc : Nat) (pf ff : Str → Str)
    (rows : List (List Str)) :
    (convertRows lengths tc pf ff rows).1.length = rows.length ∧
    ∀ i, i < rows.length →
      ((convertRows lengths tc pf ff rows).1.getD i [] = joinComma (rows.getD i []) ∨
       ∃ k t, reFieldSearch (joinComma (rows.getD i [])) = some k ∧
         (convertRows lengths tc pf ff rows).1.getD i [] =
           (joinComma (rows.getD i [])).take k ++ t) := by
  constructor
  · exact convertRowsAux_length lengths tc pf ff rows 1
  · intro i hi
    unfold convertRows
    rw [convertRowsAux_getD lengths tc pf ff rows 1 i hi]
    cases hk : reFieldSearch (joinComma (rows.getD i [])) with
    | none =>
      left
      rw [convertLine_eq_pass lengths tc pf ff (1 + i) (rows.getD i []) hk]
    | some k =>
      rw [convertLine_eq_anchored lengths tc pf ff (1 + i) (rows.getD i []) k hk]
      rcases convertLineAnchored_fst lengths tc pf ff (1 + i)
          (joinComma (rows.getD i [])) k with h | ⟨t, h⟩
      · left; exact h
      · right; exact ⟨k, t, rfl, h⟩

/-- Witness for C10 on a concrete two-row batch (one anchored row, one
row without an anchor). -/
theorem C10_row_correspondence_witness :
    (0 : Nat) < 2 ∧
    ((convertRows [10] 2 (normalize_code 6) (normalize_code 6)
        [[['R','E'], ['1'], ['0','0','0','0','0','0','4','6','8','0'], [], []],
         [['X','X']]]).1.length = 2 ∧
     ((convertRows [10] 2 (normalize_code 6) (normalize_code 6)
        [[['R','E'], ['1'], ['0','0','0','0','0','0','4','6','8','0'], [], []],
         [['X','X']]]).1.getD 0 [] =
          joinComma [['R','E'], ['1'], ['0','0','0','0','0','0','4','6','8','0'], [], []] ∨
      ∃ k t, reFieldSearch (joinComma [['R','E'], ['1'],
          ['0','0','0','0','0','0','4','6','8','0'], [], []]) = some k ∧
        (convertRows [10] 2 (normalize_code 6) (normalize_code 6)
          [[['R','E'], ['1'], ['0','0','0','0','0','0','4','6','8','0'], [], []],
           [['X','X']]]).1.getD 0 [] =
          (joinComma [['R','E'], ['1'],
            ['0','0','0','0','0','0','4','6','8','0'], [], []]).take k ++ t)) :=
  ⟨by decide,
   (C10_row_correspondence [10] 2 (normalize_code 6) (normalize_code 6)
      [[['R','E'], ['1'], ['0','0','0','0','0','0','4','6','8','0'], [], []],
       [['X','X']]]).1,
   (C10_row_correspondence [10] 2 (normalize_code 6) (normalize_code 6)
      [[['R','E'], ['1'], ['0','0','0','0','0','0','4','6','8','0'], [], []],
       [['X','X']]]).2 0 (by decide)⟩

/-- C2: NO_CODE_DETECTED.  For an anchored row on which the primary
pattern yields zero matches and the fallback substitution changes
nothing, `convert_rows` records exactly one error row with reason
`no_code_detected` (and no change rows), and emits the input line
unchanged. -/
theorem C2_no_code_detected (lengths : List Nat) (tc : Nat) (pf ff : Str → Str)
    (idx : Nat) (row : List Str) (k : Nat)
    (hk : reFieldSearch (joinComma row) = some k)
    (h0 : (primSubWith lengths tc pf ((joinComma row).drop k)).2 = [])
    (h1 : (fbSubWith tc ff ((joinComma row).drop k)).2.filter
        (fun c => ff c ≠ c) = []) :
    convertLine lengths tc pf ff idx row =
      (joinComma row, [], [⟨idx, [], "no_code_detected", joinComma row⟩]) := by
  rw [convertLine_eq_anchored lengths tc pf ff idx row k hk]
  simp only [convertLineAnchored]
  rw [if_pos h0, if_pos h1]

/-- Witness for C2: an anchored row whose only candidate has the wrong
width (8 digits), so neither stage finds anything to convert. -/
theorem C2_no_code_detected_witness :
    reFieldSearch (joinComma [['R','E'], ['1'],
      ['2','0','2','5','0','1','3','1'], [], []]) = some 3 ∧
    convertLine [10] 2 (normalize_code 6) (normalize_code 6) 1
        [['R','E'], ['1'], ['2','0','2','5','0','1','3','1'], [], []] =
      (joinComma [['R','E'], ['1'], ['2','0','2','5','0','1','3','1'], [], []],
       [], [⟨1, [], "no_code_detected",
        joinComma [['R','E'], ['1'], ['2','0','2','5','0','1','3','1'], [], []]⟩]) :=
  ⟨by decide,
   C2_no_code_detected [10] 2 (normalize_code 6) (normalize_code 6) 1
     [['R','E'], ['1'], ['2','0','2','5','0','1','3','1'], [], []] 3
     (by decide) (by decide) (by decide)⟩

/-- C3: NO_CHANGE.  For an anchored row where the primary stage matched at
least one candidate but produced no text change, and the fallback re-run
over the original tail also produces no accepted change, `convert_rows`
records exactly one error row whose matched-codes field is the
de-duplicated, first-occurrence-order list of the matched codes joined by
spaces, and emits the input line unchanged. -/
theorem C3_no_change (lengths : List Nat) (tc : Nat) (pf ff : Str → Str)
    (idx : Nat) (row : List Str) (k : Nat)
    (hk : reFieldSearch (joinComma row) = some k)
    (h0 : ¬ (primSubWith lengths tc pf ((joinComma row).drop k)).2 = [])
    (h1 : (primSubWith lengths tc pf ((joinComma row).drop k)).2.filter
        (fun c => pf c ≠ c) = [])
    (h2 : (joinComma row).take k ++ (primSubWith lengths tc pf ((joinComma row).drop k)).1
        = joinComma row)
    (h3 : ¬ (((primSubWith lengths tc ff ((joinComma row).drop k)).2.filter
          (fun c => ff c ≠ c)
        ++ (fbSubWith tc ff (primSubWith lengths tc ff ((joinComma row).drop k)).1).2.filter
          (fun c => ff c ≠ c)) ≠ [] ∧
        (joinComma row).take k
          ++ (fbSubWith tc ff (primSubWith lengths tc ff ((joinComma row).drop k)).1).1
          ≠ joinComma row)) :
    (convertLine lengths tc pf ff idx row).1 = joinComma row ∧
    (convertLine lengths tc pf ff idx row).2.2 =
      [⟨idx, joinSpace (dedupKeepFirst
          (primSubWith lengths tc pf ((joinComma row).drop k)).2),
        "no_change", joinComma row⟩] := by
  rw [convertLine_eq_anchored lengths tc pf ff idx row k hk]
  simp only [convertLineAnchored]
  rw [if_neg h0, if_pos (And.intro h1 h2), if_neg h3]
  exact ⟨rfl, rfl⟩

/-- Witness for C3: a ten-digit candidate that both stages convert to
itself. -/
theorem C3_no_change_witness :
    reFieldSearch (joinComma [['R','E'], ['1'],
      ['0','0','0','0','0','0','4','6','8','0'], [], []]) = some 3 ∧
    (convertLine [10] 2 (fun c => c) (fun c => c) 1
        [['R','E'], ['1'], ['0','0','0','0','0','0','4','6','8','0'], [], []]).1 =
      joinComma [['R','E'], ['1'], ['0','0','0','0','0','0','4','6','8','0'], [], []] ∧
    (convertLine [10] 2 (fun c => c) (fun c => c) 1
        [['R','E'], ['1'], ['0','0','0','0','0','0','4','6','8','0'], [], []]).2.2 =
      [⟨1, joinSpace (dedupKeepFirst
          (primSubWith [10] 2 (fun c => c)
            ((joinComma [['R','E'], ['1'],
              ['0','0','0','0','0','0','4','6','8','0'], [], []]).drop 3)).2),
        "no_change",
        joinComma [['R','E'], ['1'], ['0','0','0','0','0','0','4','6','8','0'], [], []]⟩] :=
  ⟨by decide,
   C3_no_change [10] 2 (fun c => c) (fun c => c) 1
     [['R','E'], ['1'], ['0','0','0','0','0','0','4','6','8','0'], [], []] 3
     (by decide) (by decide) (by decide) (by decide) (by decide)⟩

/-- C6: Comma-count stability.  In trailing-comma mode, for an anchored
row on which the primary stage replaces at least one match, the output
line has exactly as many commas as the input line, provided the converted
codes are comma-free (each replacement re-emits one leading comma, the
code, and exactly the configured trailing commas for the consumed
span). -/
theorem C6_comma_stability (lengths : List Nat) (tc : Nat) (pf ff : Str → Str)
    (idx : Nat) (row : List Str) (k : Nat)
    (hpf : ∀ c ∈ (primSubWith lengths tc pf ((joinComma row).drop k)).2,
      (pf c).count ',' = 0)
    (hk : reFieldSearch (joinComma row) = some k)
    (h1 : (primSubWith lengths tc pf ((joinComma row).drop k)).2.filter
        (fun c => pf c ≠ c) ≠ []) :
    ((convertLine lengths tc pf ff idx row).1).count ',' =
      (joinComma row).count ',' := by
  have h0 : ¬ (primSubWith lengths tc pf ((joinComma row).drop k)).2 = [] := by
    intro hz
    apply h1
    rw [hz]
    rfl
  rw [convertLine_eq_anchored lengths tc pf ff idx row k hk]
  simp only [convertLineAnchored]
  rw [if_neg h0, if_neg (fun hand => h1 hand.1)]
  rw [List.count_append, primSubWith_count lengths tc pf _ hpf]
  rw [← List.count_append, List.take_append_drop]

/-- Witness for C6: one converted ten-digit code in trailing-comma
mode. -/
theorem C6_comma_stability_witness :
    (∀ c ∈ (primSubWith [10] 2 (normalize_code 6)
        ((joinComma [['R','E'], ['1'],
          ['0','0','0','0','0','0','4','6','8','0'], [], []]).drop 3)).2,
      ((normalize_code 6) c).count ',' = 0) ∧
    reFieldSearch (joinComma [['R','E'], ['1'],
      ['0','0','0','0','0','0','4','6','8','0'], [], []]) = some 3 ∧
    ((convertLine [10] 2 (normalize_code 6) (normalize_code 6) 1
        [['R','E'], ['1'], ['0','0','0','0','0','0','4','6','8','0'], [], []]).1).count ',' =
      (joinComma [['R','E'], ['1'],
        ['0','0','0','0','0','0','4','6','8','0'], [], []]).count ',' :=
  ⟨by decide, by decide,
    C6_comma_stability [10] 2 (normalize_code 6) (normalize_code 6) 1
      [['R','E'], ['1'], ['0','0','0','0','0','0','4','6','8','0'], [], []] 3
      (by decide) (by decide) (by decide)⟩

/-- C4 counterexample: `_strip_branch` has no all-digit guard.  The
non-digit code `1-23` (length `N + 1` with `N = 3`, trailing character
`3` registered) is stripped to `1-2`, refuting the claim that stripping
happens only for all-digit codes. -/
theorem C4_counterexample :
    strip_branch 3 1 [['3']] [] ['1', '-', '2', '3'] = ['1', '-', '2'] ∧
    (['1', '-', '2', '3'].all isDigitChar) = false := by decide

/-- C4 (amended): `_strip_branch` strips the trailing 1 (resp. 2)
characters iff the branch mode is 1 (resp. 2), the code length is exactly
`N + 1` (resp. `N + 2`) and the trailing substring is registered — with
no all-digit requirement.  Mode 0 always returns the code unchanged, and
a code shorter than `N + 1` is never stripped. -/
theorem C4_strip_branch_characterization (L mode : Nat) (suf1 suf2 : List Str)
    (code : Str) :
    (mode = 0 → strip_branch L mode suf1 suf2 code = code) ∧
    (mode = 1 → code.length = L + 1 →
      suf1.contains (code.drop (code.length - 1)) = true →
      strip_branch L mode suf1 suf2 code = code.take (code.length - 1)) ∧
    (mode = 2 → code.length = L + 2 →
      suf2.contains (code.drop (code.length - 2)) = true →
      strip_branch L mode suf1 suf2 code = code.take (code.length - 2)) ∧
    (strip_branch L mode suf1 suf2 code ≠ code →
      (mode = 1 ∧ code.length = L + 1 ∧
        suf1.contains (code.drop (code.length - 1)) = true) ∨
      (mode = 2 ∧ code.length = L + 2 ∧
        suf2.contains (code.drop (code.length - 2)) = true)) ∧
    (code.length < L + 1 → strip_branch L mode suf1 suf2 code = code) := by
  refine ⟨?_, ?_, ?_, ?_, ?_⟩
  · intro h
    subst h
    simp [strip_branch]
  · intro hm hlen hmem
    unfold strip_branch
    rw [if_pos ⟨hm, hlen, hmem⟩]
  · intro hm hlen hmem
    unfold strip_branch
    rw [if_neg (fun hand => by simp [hm] at hand), if_pos ⟨hm, hlen, hmem⟩]
  · intro hne
    unfold strip_branch at hne
    by_cases h1 : mode = 1 ∧ code.length = L + 1 ∧
        suf1.contains (code.drop (code.length - 1)) = true
    · exact Or.inl h1
    · rw [if_neg h1] at hne
      by_cases h2 : mode = 2 ∧ code.length = L + 2 ∧
          suf2.contains (code.drop (code.length - 2)) = true
      · exact Or.inr h2
      · rw [if_neg h2] at hne
        exact absurd rfl hne
  · intro hshort
    unfold strip_branch
    rw [if_neg (fun hand => absurd hand.2.1 (by omega)),
      if_neg (fun hand => absurd hand.2.1 (by omega))]

/-- Witness for C4 (amended) at a registered all-digit suffix. -/
theorem C4_strip_branch_characterization_witness :
    strip_branch 3 1 [['4']] [] ['1', '2', '3', '4'] = ['1', '2', '3'] :=
  (C4_strip_branch_characterization 3 1 [['4']] [] ['1', '2', '3', '4']).2.1
    rfl (by decide) (by decide)

/-! ## Normalizer lemmas -/

theorem zfill_of_le (w : Nat) (s : Str) (h : w ≤ s.length) : zfill w s = s := by
  unfold zfill
  rw [if_pos h]

theorem zfill_length (w : Nat) (s : Str) : (zfill w s).length = max w s.length := by
  unfold zfill
  split
  · next h => rw [Nat.max_eq_right h]
  · next h =>
    cases s with
    | nil => simp
    | cons c cs =>
      dsimp only
      split
      · simp only [List.length_cons, List.length_append, List.length_replicate]
        omega
      · simp only [List.length_cons, List.length_append, List.length_replicate]
        omega

theorem normalize_code_length (L : Nat) (x : Str) (hL : 1 ≤ L) :
    (normalize_code L x).length = L := by
  unfold normalize_code pySliceLast
  split
  · next h =>
    rw [if_neg (by omega)]
    simp only [List.length_drop]
    omega
  · next h =>
    rw [zfill_length]
    omega

theorem normalize_code_fixed (L : Nat) (y : Str) (hy : y.length = L) :
    normalize_code L y = y := by
  unfold normalize_code
  rw [if_neg (by omega)]
  exact zfill_of_le L y (by omega)

/-- C5 counterexample: `_normalize_code` uses Python `zfill`, which keeps
a leading sign in front of the inserted zeros; the result for `-1` at
width 3 is `-01`, not the plain left-padding `0-1` the claim states. -/
theorem C5_counterexample :
    normalize_code 3 ['-', '1'] = ['-', '0', '1'] ∧
    normalize_code 3 ['-', '1'] ≠ ['0', '-', '1'] := by decide

/-- C5 (amended): for width `L ≥ 1`, `_normalize_code` always returns a
string of length exactly `L`, is idempotent, and returns the rightmost
`L` characters when the input is longer than `L`; otherwise it
zero-fills, keeping a leading `+`/`-` sign in front of the inserted
zeros. -/
theorem C5_normalize_props (L : Nat) (x : Str) (hL : 1 ≤ L) :
    (normalize_code L x).length = L ∧
    normalize_code L (normalize_code L x) = normalize_code L x ∧
    (L < x.length → normalize_code L x = x.drop (x.length - L)) := by
  refine ⟨normalize_code_length L x hL, ?_, ?_⟩
  · exact normalize_code_fixed L (normalize_code L x) (normalize_code_length L x hL)
  · intro h
    unfold normalize_code pySliceLast
    rw [if_pos h, if_neg (by omega)]

/-- Witness for C5 (amended) at `L = 3`. -/
theorem C5_normalize_props_witness :
    (1 ≤ 3 ∧ (normalize_code 3 ['1', '2']).length = 3) ∧
    normalize_code 3 (normalize_code 3 ['1', '2']) = normalize_code 3 ['1', '2'] :=
  ⟨⟨by decide, (C5_normalize_props 3 ['1', '2'] (by decide)).1⟩,
   (C5_normalize_props 3 ['1', '2'] (by decide)).2.1⟩

/-- C9 counterexample: `_normalize_code` pads non-digit input like any
other string — `ab` at width 3 becomes `0ab`, not `ab`. -/
theorem C9_counterexample :
    normalize_code 3 ['a', 'b'] = ['0', 'a', 'b'] ∧
    normalize_code 3 ['a', 'b'] ≠ ['a', 'b'] := by decide

/-- C9 (amended): the defensive non-digit no-op lives in the generic
fallback formatter `_format_code_force_branch_general`, which returns the
whitespace-stripped input unchanged whenever the stripped text is not a
non-empty digit string; `_normalize_code` itself pads or truncates any
input. -/
theorem C9_force_general_nonDigit (raw : Str) (in_len out_len : Nat)
    (h : pyIsDigit (pyStrip raw) = false) :
    format_code_force_branch_general raw in_len out_len = pyStrip raw := by
  simp [format_code_force_branch_general, h]

/-- Witness for C9 (amended) on a non-digit input with surrounding
whitespace. -/
theorem C9_force_general_nonDigit_witness :
    pyIsDigit (pyStrip [' ', 'a', 'b', ' ']) = false ∧
    format_code_force_branch_general [' ', 'a', 'b', ' '] 10 6 =
      pyStrip [' ', 'a', 'b', ' '] :=
  ⟨by decide, C9_force_general_nonDigit [' ', 'a', 'b', ' '] 10 6 (by decide)⟩

/-- C7 counterexample: `_build_regex` does not fail on the allegedly
invalid configurations — `T = 0`, an empty custom symbol, and `N = 0` in
trailing-comma mode each produce an ordinary pattern; there is no
`InvalidConfig` anywhere. -/
theorem C7_counterexample :
    build_regex none 5 0 0 ['*'] = Except.ok (PatSpec.commaPat [5] 0) ∧
    build_regex none 5 2 1 [] = Except.ok (PatSpec.symPat 5 ['*']) ∧
    build_regex none 0 0 0 [] = Except.ok (PatSpec.commaPat [0] 0) :=
  ⟨rfl, rfl, rfl⟩

/-- C7 (amended): pattern construction fails only in custom-symbol mode
with `N = 0`, where the `{1,0}` quantifier makes `re.compile` raise
`re.error` — an uncaught exception at pattern-build time, before any row
is processed.  There is no dedicated `InvalidConfig`: `T ≤ 0` and an
empty symbol are accepted (the empty symbol defaults to `*`, and the
settings dialog clamps the trailing-comma count into
`[1, MAX_TRAILING_COMMAS]` before it ever reaches construction), and
`N = 0` is accepted in trailing-comma mode; for every other parameter
combination construction succeeds, purely and deterministically. -/
theorem C7_construction_characterization (tc : Int) (allowed : Option (List Nat))
    (n tcs dm : Nat) (sym : Str) :
    ((build_regex allowed n tcs dm sym).isOk = false ↔ dm ≠ 0 ∧ n = 0) ∧
    1 ≤ apply_settings_trailing tc ∧ apply_settings_trailing tc ≤ 30 ∧
    build_regex allowed n tcs dm [] = build_regex allowed n tcs dm ['*'] := by
  refine ⟨?_, le_max_left 1 _, ?_, ?_⟩
  · by_cases hdm : dm = 0
    · simp [build_regex, hdm, Except.isOk, Except.toBool]
    · by_cases hn : n = 0
      · simp [build_regex, hdm, hn, Except.isOk, Except.toBool]
      · simp [build_regex, hdm, hn, Except.isOk, Except.toBool]
  · unfold apply_settings_trailing
    apply max_le
    · norm_num
    · refine le_trans (min_le_left _ _) ?_
      norm_num [MAX_TRAILING_COMMAS]
  · by_cases hdm : dm = 0
    · simp [build_regex, hdm]
    · by_cases hn : n = 0
      · simp [build_regex, hdm, hn]
      · simp [build_regex, hdm, hn]

/-- Witness for C7 (amended): the failing configuration
(custom-symbol mode, `N = 0`) really is rejected. -/
theorem C7_construction_characterization_witness :
    (build_regex none 0 0 1 ['*']).isOk = false :=
  (C7_construction_characterization 0 none 0 0 1 ['*']).1.mpr ⟨by decide, rfl⟩

/-- C8: in custom-symbol mode the pattern built by
`Highlighter._build_regex` has a single unnamed group, so the
`m.group('sym')` lookup in `convert_and_save._repl` always fails and the
replacement falls back to the trailing commas: the row
`RE,1,0000004680*` (symbol `*`, `T = 2`, conversion width 6) is rewritten
to `RE,1,004680,,` — the captured symbol is deleted, not re-emitted as
the code's own comment and the specification state. -/
theorem C8_symbol_dropped :
    gui_convert_line_sym 10 ['*'] 2 0 10 6 [] []
        [['R', 'E'], ['1'], ['0', '0', '0', '0', '0', '0', '4', '6', '8', '0', '*']] =
      ['R', 'E', ',', '1', ',', '0', '0', '4', '6', '8', '0', ',', ','] ∧
    ['R', 'E', ',', '1', ',', '0', '0', '4', '6', '8', '0', ',', ','] ≠
      ['R', 'E', ',', '1', ',', '0', '0', '4', '6', '8', '0', '*'] := by decide
